import Mathlib

/-!
Verification of the behavioural contracts of `diaspy/models.py`.

The module under study is a thin client-side object model over an HTTP API.
Each method issues at most a handful of HTTP requests and branches on the
response status code and parsed JSON body.  We embed every method as a pure
Lean function: the HTTP response (status code, parse result of the body) is
passed in as an argument, the request(s) a method would issue are returned
as data, raised Python exceptions become constructors of explicit result
types, and Python truthiness tests on ints / strings / lists are translated
to the corresponding emptiness / zero tests.

JSON bodies are abstracted only as far as the code itself inspects them:
a parse that raises `json.decoder.JSONDecodeError` is `none`, a parse that
yields Python `None` is `some none`, and any other parsed value is
`some (some v)` for an abstract value `v`.
-/

namespace Diaspy

/-! ## Character classes used by the Notification regexes

`models.py` compiles `/people/([0-9a-f]+)["\']{1} class=["\']{1}hovercardable`
and `/posts/[0-9a-f]+`; the character class is lowercase hex. -/

/-- Membership in the regex character class `[0-9a-f]` (lowercase hex). -/
def isHexDig (c : Char) : Bool := (('0' ≤ c) && (c ≤ '9')) || (('a' ≤ c) && (c ≤ 'f'))

/-- Membership in `[0-9]`: the digits accepted by Python `int()`. -/
def isDecDig (c : Char) : Bool := ('0' ≤ c) && (c ≤ '9')

/-- Membership in the regex character class `["\']` (double or single quote);
the single quote is written as `Char.ofNat 39`. -/
def isQuote (c : Char) : Bool := (c == '"') || (c == Char.ofNat 39)

/-! ## Comment and Comments (`models.py` lines 266-338)

`Comment.__init__` stores the raw mapping and projects out `id` and `guid`.
`Comments` wraps an optional backing list; all of its dunder methods guard on
Python truthiness of that backing store (`if self._comments:`), which is
False both for `None` and for the empty list. -/

/-- The part of a raw JSON comment payload that `Comment` inspects. -/
structure CommentData where
  id : Nat
  guid : String
  text : String
deriving DecidableEq

/-- `Comment`: stores `data` and the projected `id` and `guid` attributes. -/
structure Comment where
  data : CommentData
  id : Nat
  guid : String
deriving DecidableEq

/-- `Comment.__init__(data)`. -/
def Comment.ofData (d : CommentData) : Comment := ⟨d, d.id, d.guid⟩

/-- `Comments`: `self._comments` is `None` or a list of `Comment`. -/
structure Comments where
  comments : Option (List Comment)
deriving DecidableEq

/-- `Comments()` with the default argument: backing store `None`. -/
def Comments.new : Comments := ⟨none⟩

/-- `Comments.__len__`: `if self._comments: return len(self._comments)` —
falls off the end (returns Python `None`) when the backing store is `None`
or the empty list. -/
def Comments.lenM (cs : Comments) : Option Nat :=
  match cs.comments with
  | some l => if l = [] then none else some l.length
  | none => none

/-- `Comments.__iter__`: yields the elements of the backing list when it is
truthy, nothing otherwise. -/
def Comments.iterM (cs : Comments) : List Comment :=
  match cs.comments with
  | some l => l
  | none => []

/-- `Comments.__bool__`: `True` exactly when the backing store is a
nonempty list. -/
def Comments.boolM (cs : Comments) : Bool :=
  match cs.comments with
  | some l => decide (l ≠ [])
  | none => false

/-- `Comments.set_json(json_comments)`:
`if json_comments: self._comments = [Comment(c) for c in json_comments]` —
a no-op on a falsy (empty) argument. -/
def Comments.set_json (cs : Comments) (json_comments : List CommentData) : Comments :=
  if json_comments = [] then cs else ⟨some (json_comments.map Comment.ofData)⟩

/-! ## Post data, `_fetchdata` and `_fetchcomments` (lines 340-425)

`L` abstracts the JSON shape of a like object. -/

/-- The `interactions` sub-object of a post payload, as far as the code
inspects it. -/
structure Interactions (L : Type) where
  comments_count : Nat
  likes : List L
  comments : List CommentData
deriving DecidableEq

/-- The fetched JSON payload of a post, as far as the code inspects it. -/
structure PostData (L : Type) where
  id : Nat
  guid : String
  interactions : Interactions L
deriving DecidableEq

/-- The `id` / `guid` attributes of a `Post` object (`self.id`, `self.guid`;
`0` and `""` are the falsy defaults of `Post.__init__`). -/
structure PostIds where
  id : Nat
  guid : String
deriving DecidableEq

/-- The URL targeted by `Post._fetchdata`:
`if self.id: id = self.id` then `if self.guid: id = self.guid`, then
`'posts/{0}.json'.format(id)`.  The second assignment overwrites the first,
so a nonempty `guid` wins over a nonzero `id`; with neither, the local
variable is unbound (`none`). -/
def fetchdataUrl (p : PostIds) : Option String :=
  if p.guid ≠ "" then some ("posts/" ++ p.guid ++ ".json")
  else if p.id ≠ 0 then some ("posts/" ++ toString p.id ++ ".json")
  else none

/-- Result of `Post._fetchdata` once the response arrives. -/
inductive FetchdataResult (L : Type)
  | postError (code : Nat)
  | ok (newData : PostData L)
deriving DecidableEq

/-- `Post._fetchdata` response handling: a status other than 200 raises
`PostError`; on 200 the truthy response replaces `self._data` with the
parsed body. -/
def fetchdataOutcome (L : Type) (status : Nat) (body : PostData L) : FetchdataResult L :=
  if status ≠ 200 then .postError status else .ok body

/-- The comments request issued by `Post._fetchcomments`:
`id = self._data['id']`, and the GET on `posts/{id}/comments.json` happens
only under `if self['interactions']['comments_count']:` (nonzero count). -/
def fetchcommentsUrl {L : Type} (d : PostData L) : Option String :=
  if d.interactions.comments_count ≠ 0 then
    some ("posts/" ++ toString d.id ++ "/comments.json")
  else none

/-! ## Aspect.addUser (lines 51-99) -/

/-- Result of `Aspect.addUser`; the three `AspectError` messages are kept
apart, `CSRFProtectionKickedIn` is its own error class. -/
inductive AddUserResult (V : Type)
  | duplicateError (code : Nat)
  | notFoundError (code : Nat)
  | wrongStatusError (code : Nat)
  | csrfProtectionKickedIn
  | ok (response : V)
deriving DecidableEq

/-- `Aspect.addUser` response handling.  `body` is the parse of the
response: `none` for a `JSONDecodeError` (the `except` clause passes and
`response` stays `None`), `some none` for a body parsing to Python `None`,
`some (some v)` otherwise; `if response is None:` then raises
`CSRFProtectionKickedIn`. -/
def addUser (V : Type) (status : Nat) (body : Option (Option V)) : AddUserResult V :=
  if status = 400 then .duplicateError status
  else if status = 404 then .notFoundError status
  else if status ≠ 200 then .wrongStatusError status
  else
    match body with
    | some (some v) => .ok v
    | _ => .csrfProtectionKickedIn

/-! ## Conversation.delete (lines 245-258) -/

/-- Result of `Conversation.delete`. -/
inductive ConvDeleteResult
  | ok
  | conversationError (code : Nat)
deriving DecidableEq

/-- `Conversation.delete` response handling:
`if request.status_code != 404: raise ConversationError(...)`. -/
def conversationDelete (status : Nat) : ConvDeleteResult :=
  if status ≠ 404 then .conversationError status else .ok

/-! ## Post.like (lines 449-468) -/

/-- Result of `Post.like`: `postError` for the status check, and
`jsonDecodeError` when `request.json()` raises on a 201 response;
`ok` carries the updated `self._data` and the returned value. -/
inductive LikeResult (L : Type)
  | postError (code : Nat)
  | jsonDecodeError
  | ok (newData : PostData L) (returned : Option L)
deriving DecidableEq

/-- `Post.like` response handling: non-201 raises `PostError`; on 201 the
body is parsed (`none` = decode error raised), a truthy parse replaces
`self._data['interactions']['likes']` with the singleton `[likes_json]`,
and `likes_json` is returned either way. -/
def postLike (L : Type) (d : PostData L) (status : Nat) (body : Option (Option L)) :
    LikeResult L :=
  if status ≠ 201 then .postError status
  else
    match body with
    | none => .jsonDecodeError
    | some none => .ok d none
    | some (some v) =>
        .ok { d with interactions := { d.interactions with likes := [v] } } (some v)

/-! ## Notification.mark (lines 186-197) -/

/-- An HTTP request, identified by verb and path. -/
structure Req where
  verb : String
  path : String
deriving DecidableEq

/-- The state of a `Notification` object: the `self.unread` attribute set at
construction, and the `id` / `unread` entries of `self._data`. -/
structure NotificationState where
  unreadAttr : Bool
  dataId : Nat
  dataUnread : Bool
deriving DecidableEq

/-- `Notification.mark(unread)`: one PUT on `notifications/{self['id']}`
(with the `set_unread` param and CSRF header), then
`self._data['unread'] = unread`.  The response status is never read, so it
is an unused argument and no error path exists. -/
def notificationMark (n : NotificationState) (unread : Bool) (_status : Nat) :
    List Req × NotificationState :=
  ([⟨"PUT", "notifications/" ++ toString n.dataId⟩], { n with dataUnread := unread })

/-! ## The Notification regex scanners (lines 137-179)

`Notification.who` runs `findall` of
`/people/([0-9a-f]+)["\']{1} class=["\']{1}hovercardable` over
`self._data['note_html']` and returns the list of captures.
`Notification.about` runs `search` of `/posts/[0-9a-f]+`, converts the match
(stripped of the 7-character literal `/posts/`) with `int`, and falls back
to `who()` when there is no match.

Both regexes are literal text around a single greedy `[0-9a-f]+`.  Because
the character following the hex run in the pattern is never itself a hex
digit, greedy matching with backtracking coincides with "take the maximal
hex run and check the literal tail", which is what the scanners below do.
`findall` scans left to right and resumes after the end of each match;
the fuel-indexed `whoScanF` (fuel bounded by the remaining length) mirrors
that loop while staying structurally recursive. -/

/-- Match a literal: `dropLit lit s = some t` iff `s = lit ++ t`. -/
def dropLit : List Char → List Char → Option (List Char)
  | [], s => some s
  | _ :: _, [] => none
  | p :: ps, c :: cs => if c = p then dropLit ps cs else none

/-- One attempt of the `who` regex at the current position: literal
`/people/`, a nonempty maximal hex run (the capture), one quote, literal
`␣class=`, one quote, literal `hovercardable`.  Returns the capture and the
rest of the input after the whole match. -/
def tryMatchWho (s : List Char) : Option (List Char × List Char) :=
  match dropLit ("/people/".toList) s with
  | none => none
  | some s1 =>
    let hex := s1.takeWhile isHexDig
    if hex = [] then none else
    match s1.dropWhile isHexDig with
    | [] => none
    | q1 :: s3 =>
      if isQuote q1 then
        match dropLit (" class=".toList) s3 with
        | none => none
        | some s4 =>
          match s4 with
          | [] => none
          | q2 :: s5 =>
            if isQuote q2 then
              match dropLit ("hovercardable".toList) s5 with
              | none => none
              | some s6 => some (hex, s6)
            else none
      else none

/-- The `findall` loop, indexed by fuel (any fuel at least the input length
gives the same answer, see `whoScanF_congr`). -/
def whoScanF : Nat → List Char → List (List Char)
  | 0, _ => []
  | _ + 1, [] => []
  | fuel + 1, c :: rest =>
    match tryMatchWho (c :: rest) with
    | some (g, after) => g :: whoScanF fuel after
    | none => whoScanF fuel rest

/-- `Notification.who()`: all captures of the compiled `_who_regexp` over
the note, in order. -/
def who (note : List Char) : List (List Char) := whoScanF note.length note

/-- One attempt of the `about` regex at the current position: literal
`/posts/` followed by a nonempty maximal hex run; the run is returned
(this is `match.group(0)[7:]`). -/
def tryMatchAbout (s : List Char) : Option (List Char) :=
  match dropLit ("/posts/".toList) s with
  | none => none
  | some s1 =>
    let run := s1.takeWhile isHexDig
    if run = [] then none else some run

/-- `re.search` of `_aboutid_regexp`: the first position at which the
pattern matches, scanning left to right. -/
def aboutSearch : List Char → Option (List Char)
  | [] => none
  | c :: rest =>
    match tryMatchAbout (c :: rest) with
    | some run => some run
    | none => aboutSearch rest

/-- Decimal value of a digit string (the value computed by Python `int`
when every character is a decimal digit). -/
def decVal (l : List Char) : Nat := l.foldl (fun a c => 10 * a + (c.toNat - 48)) 0

/-- Python `int(s)` on a nonempty string of characters drawn from
`[0-9a-f]`: the decimal value when all characters are decimal digits,
otherwise a `ValueError` (`none`). -/
def pyInt (l : List Char) : Option Nat :=
  if l ≠ [] ∧ l.all isDecDig = true then some (decVal l) else none

/-- The value produced by `Notification.about()`: a post id, the `who()`
list, or an uncaught `ValueError` from `int`. -/
inductive AboutResult
  | postId (n : Nat)
  | people (guids : List (List Char))
  | valueError
deriving DecidableEq

/-- `Notification.about()`: search for `/posts/[0-9a-f]+`; on a match,
`int(match.group(0)[7:])`; with no match, return `self.who()`. -/
def notifAbout (note : List Char) : AboutResult :=
  match aboutSearch note with
  | none => .people (who note)
  | some run =>
    match pyInt run with
    | some n => .postId n
    | none => .valueError

/-- The exact text matched by one hit of `_who_regexp`, with capture `g`
and quote characters `q1`, `q2`. -/
def patW (g : List Char) (q1 q2 : Char) : List Char :=
  "/people/".toList ++ (g ++ q1 :: (" class=".toList ++ q2 :: "hovercardable".toList))

/-- `g` occurs in `s` as the capture of a hit of `_who_regexp`: somewhere
in `s` stands `/people/` followed by `g`, a quote, `␣class=`, a quote and
`hovercardable`. -/
def hoverOccurs (g s : List Char) : Prop :=
  ∃ q1 q2 pre post, isQuote q1 = true ∧ isQuote q2 = true
    ∧ s = pre ++ (patW g q1 q2 ++ post)

/-- A `/posts/<hex>` reference occurs in `s`: the literal `/posts/`
followed by at least one character of `[0-9a-f]`. -/
def HasPostsRef (s : List Char) : Prop :=
  ∃ pre c post, isHexDig c = true ∧ s = pre ++ ("/posts/".toList ++ c :: post)

/-! ## Claims C1-C4, C7-C10 -/

/-- C1, counterexample: the claim says a nonzero `id` wins over a set
`guid` for the `_fetchdata` URL.  On a post with `id = 1` and
`guid = "abc"` the code targets `posts/abc.json`, not `posts/1.json`:
the second truthiness test overwrites the local variable with the guid. -/
theorem fetchdataUrl_prefers_guid :
    fetchdataUrl ⟨1, "abc"⟩ = some "posts/abc.json"
      ∧ fetchdataUrl ⟨1, "abc"⟩ ≠ some "posts/1.json" := by
  constructor <;> decide

/-- C1, amended: for every `Post` on which `_fetchdata()` is called, if the
post's guid is present (nonempty) the GET targets `posts/{guid}.json` using
the guid even when an id is also set (guid if present, else id); a non-200
response raises `PostError`; a 200 response replaces the post's data with
the parsed response body. -/
theorem fetchdata_spec (L : Type) (p : PostIds) (status : Nat) (body : PostData L) :
    (p.guid ≠ "" → fetchdataUrl p = some ("posts/" ++ p.guid ++ ".json"))
    ∧ (p.guid = "" → p.id ≠ 0 → fetchdataUrl p = some ("posts/" ++ toString p.id ++ ".json"))
    ∧ (status ≠ 200 → fetchdataOutcome L status body = FetchdataResult.postError status)
    ∧ (status = 200 → fetchdataOutcome L status body = FetchdataResult.ok body) := by
  refine ⟨?_, ?_, ?_, ?_⟩
  · intro h; simp [fetchdataUrl, h]
  · intro h h'; simp [fetchdataUrl, h, h']
  · intro h; simp [fetchdataOutcome, h]
  · intro h; simp [fetchdataOutcome, h]

/-- C1, witness for `fetchdata_spec` at `id = 1`, `guid = "abc"`,
status 200. -/
theorem fetchdata_spec_witness :
    fetchdataUrl ⟨1, "abc"⟩ = some ("posts/" ++ "abc" ++ ".json")
    ∧ fetchdataOutcome Nat 200 ⟨7, "abc", ⟨0, [], []⟩⟩
        = FetchdataResult.ok ⟨7, "abc", ⟨0, [], []⟩⟩ :=
  ⟨(fetchdata_spec Nat ⟨1, "abc"⟩ 200 (⟨7, "abc", ⟨0, [], []⟩⟩ : PostData Nat)).1 (by decide),
   (fetchdata_spec Nat ⟨1, "abc"⟩ 200 (⟨7, "abc", ⟨0, [], []⟩⟩ : PostData Nat)).2.2.2 rfl⟩

/-- C2: `_fetchcomments()` issues its GET iff the fetched payload's
`interactions.comments_count` is nonzero; the URL is built from the numeric
`id` of the fetched payload and is unchanged under any value of the guid;
with `comments_count = 0` no comments request is issued. -/
theorem fetchcomments_spec (L : Type) (d : PostData L) :
    (d.interactions.comments_count = 0 → fetchcommentsUrl d = none)
    ∧ (d.interactions.comments_count ≠ 0 →
        fetchcommentsUrl d = some ("posts/" ++ toString d.id ++ "/comments.json"))
    ∧ (∀ g', fetchcommentsUrl { d with guid := g' } = fetchcommentsUrl d) := by
  refine ⟨?_, ?_, ?_⟩
  · intro h; simp [fetchcommentsUrl, h]
  · intro h; simp [fetchcommentsUrl, h]
  · intro g'; simp [fetchcommentsUrl]

/-- C2, witness for `fetchcomments_spec`: a payload with numeric id 7,
guid `"g"` and 3 comments GETs `posts/7/comments.json`; one with no
comments issues nothing. -/
theorem fetchcomments_spec_witness :
    fetchcommentsUrl (⟨7, "g", ⟨3, [], []⟩⟩ : PostData Nat)
      = some ("posts/" ++ toString (7 : Nat) ++ "/comments.json")
    ∧ fetchcommentsUrl (⟨7, "g", ⟨0, [], []⟩⟩ : PostData Nat) = none :=
  ⟨(fetchcomments_spec Nat ⟨7, "g", ⟨3, [], []⟩⟩).2.1 (by decide),
   (fetchcomments_spec Nat ⟨7, "g", ⟨0, [], []⟩⟩).1 rfl⟩

/-- C3: `Aspect.addUser` classifies the response exactly as claimed:
400 duplicate, 404 user-not-found, other non-200 generic `AspectError`,
200 with a body parsing to non-`None` JSON returns the parsed body, and
200 with an unparsable or `None`-parsing body raises
`CSRFProtectionKickedIn`. -/
theorem addUser_spec (V : Type) (status : Nat) (body : Option (Option V)) :
    (status = 400 → addUser V status body = AddUserResult.duplicateError status)
    ∧ (status = 404 → addUser V status body = AddUserResult.notFoundError status)
    ∧ (status ≠ 400 → status ≠ 404 → status ≠ 200 →
        addUser V status body = AddUserResult.wrongStatusError status)
    ∧ (∀ v, status = 200 → body = some (some v) → addUser V status body = AddUserResult.ok v)
    ∧ (status = 200 → (body = none ∨ body = some none) →
        addUser V status body = AddUserResult.csrfProtectionKickedIn) := by
  refine ⟨fun h => ?_, fun h => ?_, fun h h' h'' => ?_, fun v h h' => ?_, fun h h' => ?_⟩
  · simp [addUser, h]
  · simp [addUser, h]
  · simp [addUser, h, h', h'']
  · subst h h'; simp [addUser]
  · subst h
    rcases h' with h' | h' <;> subst h' <;> simp [addUser]

/-- C3, witness for `addUser_spec`: a 200 with parsed body `5` returns
`5`; a 200 with an unparsable body raises `CSRFProtectionKickedIn`;
a 400 raises the duplicate-membership error. -/
theorem addUser_spec_witness :
    addUser Nat 200 (some (some 5)) = AddUserResult.ok 5
    ∧ addUser Nat 200 none = AddUserResult.csrfProtectionKickedIn
    ∧ addUser Nat 400 none = AddUserResult.duplicateError 400 :=
  ⟨(addUser_spec Nat 200 (some (some 5))).2.2.2.1 5 rfl rfl,
   (addUser_spec Nat 200 none).2.2.2.2 rfl (Or.inl rfl),
   (addUser_spec Nat 400 none).1 rfl⟩

/-- C4: `Conversation.delete()` treats exactly status 404 as success and
raises `ConversationError` for every other status. -/
theorem conversationDelete_spec (status : Nat) :
    (conversationDelete status = ConvDeleteResult.ok ↔ status = 404)
    ∧ (status ≠ 404 → conversationDelete status = ConvDeleteResult.conversationError status) := by
  constructor
  · constructor
    · intro h
      by_contra hne
      simp [conversationDelete, hne] at h
    · intro h; simp [conversationDelete, h]
  · intro h; simp [conversationDelete, h]

/-- C4, witness for `conversationDelete_spec`: 200 and 500 both raise,
404 succeeds. -/
theorem conversationDelete_spec_witness :
    conversationDelete 200 = ConvDeleteResult.conversationError 200
    ∧ conversationDelete 500 = ConvDeleteResult.conversationError 500
    ∧ conversationDelete 404 = ConvDeleteResult.ok :=
  ⟨(conversationDelete_spec 200).2 (by decide),
   (conversationDelete_spec 500).2 (by decide),
   (conversationDelete_spec 404).1.mpr rfl⟩

/-- C7, counterexample: bulk-loading zero raw items through `set_json`
leaves the backing store unset, so `__len__` gives `None`, not the input
length 0 (in Python, `len()` on the container then raises `TypeError`). -/
theorem set_json_empty_cex :
    Comments.lenM (Comments.set_json Comments.new [])
      ≠ some (List.length ([] : List CommentData)) := by
  decide

/-- C7, amended: for every nonempty list of N raw JSON comment items, a
`Comments` container populated via `set_json` has length N and iterating it
yields the `Comment` objects in the same order as the input list; for the
empty list `set_json` is a no-op, so a fresh container reports length
`None` rather than 0. -/
theorem set_json_spec (cs : Comments) (items : List CommentData) (h : items ≠ []) :
    (cs.set_json items).lenM = some items.length
    ∧ (cs.set_json items).iterM = items.map Comment.ofData := by
  constructor <;> simp [Comments.set_json, Comments.lenM, Comments.iterM, h]

/-- C7, witness for `set_json_spec` at a one-element list. -/
theorem set_json_spec_witness :
    (Comments.new.set_json [⟨3, "g3", "hi"⟩]).lenM = some 1
    ∧ (Comments.new.set_json [⟨3, "g3", "hi"⟩]).iterM = [Comment.ofData ⟨3, "g3", "hi"⟩] :=
  set_json_spec Comments.new [⟨3, "g3", "hi"⟩] (by decide)

/-- C8: `Post.like()` raises `PostError` exactly when the status is not
201 (a 201 with an unparsable body raises `JSONDecodeError`, which is not a
`PostError`); on a 201 with a truthy parsed body it replaces
`data['interactions']['likes']` — whatever it contained before — with the
singleton list of the returned like object, and returns that object. -/
theorem like_spec (L : Type) (d : PostData L) (status : Nat) (body : Option (Option L)) :
    ((∃ c, postLike L d status body = LikeResult.postError c) ↔ status ≠ 201)
    ∧ (∀ v, status = 201 → body = some (some v) →
        postLike L d status body
          = LikeResult.ok { d with interactions := { d.interactions with likes := [v] } }
              (some v)
          ∧ ({ d with interactions := { d.interactions with likes := [v] } } : PostData L).interactions.likes = [v]) := by
  constructor
  · constructor
    · rintro ⟨c, hc⟩
      intro h
      subst h
      rcases body with _ | b
      · simp [postLike] at hc
      · rcases b with _ | v <;> simp [postLike] at hc
    · intro h
      exact ⟨status, by simp [postLike, h]⟩
  · intro v h h'
    subst h h'
    exact ⟨by simp [postLike], rfl⟩

/-- C8, witness for `like_spec`: a 500 raises `PostError`; a 201 with
parsed like object `9` on a post that already recorded a like `4` ends with
`likes = [9]`. -/
theorem like_spec_witness :
    (∃ c, postLike Nat ⟨7, "g", ⟨0, [4], []⟩⟩ 500 none = LikeResult.postError c)
    ∧ postLike Nat ⟨7, "g", ⟨0, [4], []⟩⟩ 201 (some (some 9))
        = LikeResult.ok ⟨7, "g", ⟨0, [9], []⟩⟩ (some 9) :=
  ⟨(like_spec Nat ⟨7, "g", ⟨0, [4], []⟩⟩ 500 none).1.mpr (by decide),
   ((like_spec Nat ⟨7, "g", ⟨0, [4], []⟩⟩ 201 (some (some 9))).2 9 rfl rfl).1⟩

/-- C9: `Notification.mark(unread)` issues exactly one PUT on
`notifications/{id}` and synchronously sets the notification's unread state
(`self._data['unread']`, the value served by `notification['unread']`) to
the given argument; the result is identical for every response status and
no error is ever raised (the model's result type has no error case because
the code never reads the status). -/
theorem mark_spec (n : NotificationState) (unread : Bool) (status : Nat) :
    (notificationMark n unread status).1
      = [⟨"PUT", "notifications/" ++ toString n.dataId⟩]
    ∧ (notificationMark n unread status).2.dataUnread = unread
    ∧ (notificationMark n unread status).2.dataId = n.dataId
    ∧ (∀ status', notificationMark n unread status = notificationMark n unread status') :=
  ⟨rfl, rfl, rfl, fun _ => rfl⟩

/-- C10: on a `Comments` container whose backing store is unset (`None`)
or the empty list, `__len__` returns `None` rather than 0 (so Python
`len()` raises `TypeError`), `__bool__` is `False`, and iteration yields
nothing. -/
theorem comments_empty_spec (cs : Comments)
    (h : cs.comments = none ∨ cs.comments = some []) :
    cs.lenM = none ∧ cs.boolM = false ∧ cs.iterM = [] := by
  rcases h with h | h <;>
    simp [Comments.lenM, Comments.boolM, Comments.iterM, h]

/-- C10, witness for `comments_empty_spec` on the fresh container and on
an explicitly emptied one. -/
theorem comments_empty_spec_witness :
    (Comments.new.lenM = none ∧ Comments.new.boolM = false ∧ Comments.new.iterM = [])
    ∧ ((⟨some []⟩ : Comments).lenM = none ∧ (⟨some []⟩ : Comments).boolM = false
        ∧ (⟨some []⟩ : Comments).iterM = []) :=
  ⟨comments_empty_spec Comments.new (Or.inl rfl),
   comments_empty_spec ⟨some []⟩ (Or.inr rfl)⟩

/-! ## Helper lemmas for the regex scanners -/

/-- `dropLit lit s` succeeds with `t` exactly when `s` is `lit ++ t`. -/
theorem dropLit_iff (lit : List Char) : ∀ s t : List Char,
    dropLit lit s = some t ↔ s = lit ++ t := by
  induction lit with
  | nil => intro s t; simp [dropLit, eq_comm]
  | cons p ps ih =>
    intro s t
    cases s with
    | nil => simp [dropLit]
    | cons c cs =>
      by_cases hc : c = p
      · subst hc; simp [dropLit, ih]
      · simp [dropLit, hc]

/-- `dropLit` strips the literal it is given. -/
theorem dropLit_append (lit t : List Char) : dropLit lit (lit ++ t) = some t :=
  (dropLit_iff lit (lit ++ t) t).mpr rfl

/-- A quote character is not in `[0-9a-f]`. -/
theorem quote_not_hex (c : Char) (h : isQuote c = true) : isHexDig c = false := by
  unfold isQuote at h
  rcases Bool.or_eq_true_iff.mp h with h' | h' <;>
    rw [show c = _ from eq_of_beq h'] <;> decide

/-- `takeWhile` over a block of satisfying elements followed by a failing
element returns exactly the block. -/
theorem takeWhile_append_cons (p : Char → Bool) (g : List Char) (c : Char) (t : List Char)
    (hg : g.all p = true) (hc : p c = false) :
    (g ++ c :: t).takeWhile p = g := by
  induction g with
  | nil => simp [List.takeWhile, hc]
  | cons a g ih =>
    rw [List.all_cons, Bool.and_eq_true] at hg
    simp [List.takeWhile, hg.1, ih hg.2]

/-- `dropWhile` over a block of satisfying elements followed by a failing
element drops exactly the block. -/
theorem dropWhile_append_cons (p : Char → Bool) (g : List Char) (c : Char) (t : List Char)
    (hg : g.all p = true) (hc : p c = false) :
    (g ++ c :: t).dropWhile p = c :: t := by
  induction g with
  | nil => simp [List.dropWhile, hc]
  | cons a g ih =>
    rw [List.all_cons, Bool.and_eq_true] at hg
    simp [List.dropWhile, hg.1, ih hg.2]

/-- Length of one `_who_regexp` match. -/
theorem patW_length (g : List Char) (q1 q2 : Char) :
    (patW g q1 q2).length = g.length + 30 := by
  have h1 : ("/people/".toList).length = 8 := rfl
  have h2 : (" class=".toList).length = 7 := rfl
  have h3 : ("hovercardable".toList).length = 13 := rfl
  simp [patW, h1, h2, h3]

/-- Conditional success equation for `tryMatchWho`: when each stage of the
match succeeds, the whole attempt succeeds. -/
theorem tryMatchWho_eq_some (s s1 s3 s5 s6 : List Char) (q1 q2 : Char)
    (h1 : dropLit ("/people/".toList) s = some s1)
    (h2 : s1.takeWhile isHexDig ≠ [])
    (h3 : s1.dropWhile isHexDig = q1 :: s3)
    (h4 : isQuote q1 = true)
    (h5 : dropLit (" class=".toList) s3 = some (q2 :: s5))
    (h6 : isQuote q2 = true)
    (h7 : dropLit ("hovercardable".toList) s5 = some s6) :
    tryMatchWho s = some (s1.takeWhile isHexDig, s6) := by
  unfold tryMatchWho
  rw [h1]
  simp only
  rw [if_neg h2, h3]
  simp only
  rw [if_pos h4, h5]
  simp only
  rw [if_pos h6, h7]

/-- The scanner accepts the pattern: a match attempt at the start of
`patW g q1 q2 ++ rest` captures `g` and leaves `rest`. -/
theorem tryMatchWho_patW (g : List Char) (q1 q2 : Char) (rest : List Char)
    (hg : g ≠ []) (hx : g.all isHexDig = true)
    (h1 : isQuote q1 = true) (h2 : isQuote q2 = true) :
    tryMatchWho (patW g q1 q2 ++ rest) = some (g, rest) := by
  have hre : patW g q1 q2 ++ rest
      = "/people/".toList
        ++ (g ++ q1 :: (" class=".toList ++ q2 :: ("hovercardable".toList ++ rest))) := by
    simp [patW]
  have htk : (g ++ q1 :: (" class=".toList ++ q2 :: ("hovercardable".toList ++ rest))).takeWhile isHexDig = g :=
    takeWhile_append_cons _ _ _ _ hx (quote_not_hex q1 h1)
  have hdr : (g ++ q1 :: (" class=".toList ++ q2 :: ("hovercardable".toList ++ rest))).dropWhile isHexDig
      = q1 :: (" class=".toList ++ q2 :: ("hovercardable".toList ++ rest)) :=
    dropWhile_append_cons _ _ _ _ hx (quote_not_hex q1 h1)
  have hd1 : dropLit ("/people/".toList) (patW g q1 q2 ++ rest)
      = some (g ++ q1 :: (" class=".toList ++ q2 :: ("hovercardable".toList ++ rest))) := by
    rw [hre]; exact dropLit_append _ _
  have hmain := tryMatchWho_eq_some (patW g q1 q2 ++ rest) _ _ _ _ q1 q2 hd1
    (by rw [htk]; exact hg) hdr h1 (dropLit_append _ _) h2 (dropLit_append _ _)
  rw [htk] at hmain
  exact hmain

/-- What a successful match attempt says about the input: it decomposes as
the matched pattern followed by the rest. -/
theorem tryMatchWho_decomp (s g after : List Char)
    (h : tryMatchWho s = some (g, after)) :
    g ≠ [] ∧ g.all isHexDig = true
    ∧ ∃ q1 q2, isQuote q1 = true ∧ isQuote q2 = true ∧ s = patW g q1 q2 ++ after := by
  unfold tryMatchWho at h
  cases hd1 : dropLit ("/people/".toList) s with
  | none => rw [hd1] at h; exact absurd h (by simp)
  | some s1 =>
    rw [hd1] at h
    simp only at h
    by_cases hhex : s1.takeWhile isHexDig = []
    · rw [if_pos hhex] at h; exact absurd h (by simp)
    · rw [if_neg hhex] at h
      cases hd2 : s1.dropWhile isHexDig with
      | nil => rw [hd2] at h; exact absurd h (by simp)
      | cons q1 s3 =>
        rw [hd2] at h
        simp only at h
        by_cases hq1 : isQuote q1 = true
        · rw [if_pos hq1] at h
          cases hd3 : dropLit (" class=".toList) s3 with
          | none => rw [hd3] at h; exact absurd h (by simp)
          | some s4 =>
            rw [hd3] at h
            simp only at h
            cases s4 with
            | nil => exact absurd h (by simp)
            | cons q2 s5 =>
              simp only at h
              by_cases hq2 : isQuote q2 = true
              · rw [if_pos hq2] at h
                cases hd4 : dropLit ("hovercardable".toList) s5 with
                | none => rw [hd4] at h; exact absurd h (by simp)
                | some s6 =>
                  rw [hd4] at h
                  simp only [Option.some.injEq, Prod.mk.injEq] at h
                  obtain ⟨hg, hafter⟩ := h
                  refine ⟨?_, ?_, q1, q2, hq1, hq2, ?_⟩
                  · rw [← hg]; exact hhex
                  · rw [← hg]
                    exact List.all_eq_true.mpr fun a ha => List.mem_takeWhile_imp ha
                  · have hs : s = "/people/".toList ++ s1 := (dropLit_iff _ _ _).mp hd1
                    have hs3 : s3 = " class=".toList ++ (q2 :: s5) :=
                      (dropLit_iff _ _ _).mp hd3
                    have hs5 : s5 = "hovercardable".toList ++ after := by
                      rw [← hafter]; exact (dropLit_iff _ _ _).mp hd4
                    have hs1 : s1 = g ++ (q1 :: s3) := by
                      conv_lhs => rw [← List.takeWhile_append_dropWhile (p := isHexDig) (l := s1)]
                      rw [hd2, hg]
                    rw [hs, hs1, hs3, hs5]
                    simp [patW]
              · rw [if_neg hq2] at h; exact absurd h (by simp)
        · rw [if_neg hq1] at h; exact absurd h (by simp)

/-- A successful match consumes at least one character. -/
theorem tryMatchWho_length (s g after : List Char)
    (h : tryMatchWho s = some (g, after)) : after.length < s.length := by
  obtain ⟨-, -, q1, q2, -, -, hs⟩ := tryMatchWho_decomp s g after h
  rw [hs, List.length_append, patW_length]
  omega

/-- The fuel is irrelevant once it covers the input length: `whoScanF`
computes the same list for any two sufficient fuels. -/
theorem whoScanF_congr : ∀ f1 : Nat, ∀ f2 : Nat, ∀ s : List Char,
    s.length ≤ f1 → s.length ≤ f2 → whoScanF f1 s = whoScanF f2 s := by
  intro f1
  induction f1 with
  | zero =>
    intro f2 s hs1 _
    have : s = [] := List.eq_nil_of_length_eq_zero (Nat.le_zero.mp hs1)
    subst this
    cases f2 <;> rfl
  | succ f1 ih =>
    intro f2 s hs1 hs2
    cases s with
    | nil => cases f2 <;> rfl
    | cons c rest =>
      cases f2 with
      | zero => simp at hs2
      | succ f2 =>
        show whoScanF (f1 + 1) (c :: rest) = whoScanF (f2 + 1) (c :: rest)
        unfold whoScanF
        cases htm : tryMatchWho (c :: rest) with
        | some p =>
          obtain ⟨g, after⟩ := p
          have hlt := tryMatchWho_length _ _ _ htm
          simp only [List.length_cons] at hs1 hs2 hlt
          simp only
          rw [ih f2 after (by omega) (by omega)]
        | none =>
          simp only [List.length_cons] at hs1 hs2
          simp only
          rw [ih f2 rest (by omega) (by omega)]

/-- Unfolding `who` on a successful match attempt. -/
theorem who_cons_some (c : Char) (rest g after : List Char)
    (htm : tryMatchWho (c :: rest) = some (g, after)) :
    who (c :: rest) = g :: who after := by
  have hlt := tryMatchWho_length _ _ _ htm
  simp only [List.length_cons] at hlt
  show whoScanF (c :: rest).length (c :: rest) = g :: who after
  simp only [List.length_cons]
  unfold whoScanF
  rw [htm]
  simp only
  rw [whoScanF_congr rest.length after.length after (by omega) le_rfl]
  rfl

/-- Unfolding `who` on a failed match attempt. -/
theorem who_cons_none (c : Char) (rest : List Char)
    (htm : tryMatchWho (c :: rest) = none) :
    who (c :: rest) = who rest := by
  show whoScanF (c :: rest).length (c :: rest) = who rest
  simp only [List.length_cons]
  unfold whoScanF
  rw [htm]
  rfl

/-- A capture occurrence extends to the left. -/
theorem hoverOccurs_append_left (g pre' s : List Char) (h : hoverOccurs g s) :
    hoverOccurs g (pre' ++ s) := by
  obtain ⟨q1, q2, pre, post, hq1, hq2, hs⟩ := h
  exact ⟨q1, q2, pre' ++ pre, post, hq1, hq2, by rw [hs, List.append_assoc]⟩

/-- Soundness of the fuel-indexed scan: every returned string is a
nonempty hex capture occurring in the input. -/
theorem whoScanF_sound : ∀ fuel : Nat, ∀ s : List Char, ∀ g : List Char,
    g ∈ whoScanF fuel s →
    g ≠ [] ∧ g.all isHexDig = true ∧ hoverOccurs g s := by
  intro fuel
  induction fuel with
  | zero => intro s g hg; simp [whoScanF] at hg
  | succ fuel ih =>
    intro s g hg
    cases s with
    | nil => simp [whoScanF] at hg
    | cons c rest =>
      unfold whoScanF at hg
      cases htm : tryMatchWho (c :: rest) with
      | some p =>
        obtain ⟨g', after⟩ := p
        rw [htm] at hg
        simp only [List.mem_cons] at hg
        rcases hg with hg | hg
        · subst hg
          obtain ⟨hne, hhex, q1, q2, hq1, hq2, hs⟩ := tryMatchWho_decomp _ _ _ htm
          exact ⟨hne, hhex, q1, q2, [], after, hq1, hq2, by rw [hs]; rfl⟩
        · obtain ⟨hne, hhex, hocc⟩ := ih after g hg
          obtain ⟨-, -, q1, q2, -, -, hs⟩ := tryMatchWho_decomp _ _ _ htm
          exact ⟨hne, hhex, by rw [hs]; exact hoverOccurs_append_left _ _ _ hocc⟩
      | none =>
        rw [htm] at hg
        obtain ⟨hne, hhex, hocc⟩ := ih rest g hg
        refine ⟨hne, hhex, ?_⟩
        have : c :: rest = [c] ++ rest := rfl
        rw [this]
        exact hoverOccurs_append_left _ _ _ hocc

/-- Positions of `'/'` within one match text `patW g a b`: only offsets 0
and 7, the two slashes of `/people/` (the capture is hex, the quotes are
quotes, and the literals `␣class=` and `hovercardable` are slash-free). -/
theorem patW_slash (g : List Char) (a b : Char)
    (hx : g.all isHexDig = true) (ha : isQuote a = true) (hb : isQuote b = true)
    (d : Nat) (hd : (patW g a b).get? d = some '/') : d = 0 ∨ d = 7 := by
  have hlen8 : ("/people/".toList).length = 8 := rfl
  rw [patW] at hd
  rcases Nat.lt_or_ge d 8 with h8 | h8
  · rw [List.get?_append (by rw [hlen8]; exact h8)] at hd
    interval_cases d
    · exact Or.inl rfl
    · exact absurd hd (by decide)
    · exact absurd hd (by decide)
    · exact absurd hd (by decide)
    · exact absurd hd (by decide)
    · exact absurd hd (by decide)
    · exact absurd hd (by decide)
    · exact Or.inr rfl
  · exfalso
    rw [List.get?_append_right (by rw [hlen8]; exact h8), hlen8] at hd
    rcases Nat.lt_or_ge (d - 8) g.length with hk | hk
    · rw [List.get?_append hk] at hd
      have hmem := List.get?_mem hd
      have := List.all_eq_true.mp hx _ hmem
      exact absurd this (by decide)
    · rw [List.get?_append_right hk] at hd
      cases hkk : d - 8 - g.length with
      | zero =>
        rw [hkk] at hd
        simp only [List.get?] at hd
        rw [Option.some.inj hd] at ha
        exact absurd ha (by decide)
      | succ m =>
        rw [hkk] at hd
        simp only [List.get?] at hd
        have hmem := List.get?_mem hd
        rw [List.mem_append] at hmem
        rcases hmem with hm | hm
        · exact absurd hm (by decide)
        · rcases List.mem_cons.mp hm with hm | hm
          · rw [← hm] at hb
            exact absurd hb (by decide)
          · exact absurd hm (by decide)

/-- No-overlap: when a full match text starts at position 0 and a second
occurrence of the pattern starts at a positive position, the second
occurrence lies entirely after the first match. -/
theorem patW_no_inner (g g' : List Char) (a b q1 q2 : Char)
    (after post pre : List Char)
    (hg' : g' ≠ []) (hx' : g'.all isHexDig = true)
    (ha : isQuote a = true) (hb : isQuote b = true)
    (hpre : pre ≠ [])
    (heq : patW g' a b ++ after = pre ++ (patW g q1 q2 ++ post)) :
    ∃ mid, after = mid ++ (patW g q1 q2 ++ post) := by
  have hd1 : 0 < pre.length := List.length_pos.mpr hpre
  have h31 : (patW g' a b).length = g'.length + 30 := patW_length g' a b
  have hL : (patW g' a b).length ≤ pre.length := by
    by_contra hlt
    push_neg at hlt
    have h7 : (patW g' a b ++ after).get? pre.length = some '/' := by
      rw [heq, List.get?_append_right le_rfl, Nat.sub_self]
      rfl
    rw [List.get?_append hlt] at h7
    rcases patW_slash g' a b hx' ha hb pre.length h7 with h0 | h7'
    · omega
    · have h8r : (patW g' a b ++ after).get? 8 = some 'p' := by
        rw [heq, List.get?_append_right (by omega)]
        have hsub : 8 - pre.length = 1 := by omega
        rw [hsub]
        rfl
      rw [List.get?_append (by omega)] at h8r
      rw [patW] at h8r
      have hlen8 : ("/people/".toList).length = 8 := rfl
      rw [List.get?_append_right (le_of_eq hlen8), hlen8, Nat.sub_self] at h8r
      cases g' with
      | nil => exact hg' rfl
      | cons x xs =>
        simp only [List.cons_append, List.get?] at h8r
        have hx0 : x = 'p' := Option.some.inj h8r
        have hxhex := List.all_eq_true.mp hx' x (List.mem_cons_self x xs)
        rw [hx0] at hxhex
        exact absurd hxhex (by decide)
  have htake : patW g' a b = pre.take (patW g' a b).length := by
    have h1 : (patW g' a b ++ after).take (patW g' a b).length = patW g' a b :=
      List.take_left _ _
    rw [heq, List.take_append_of_le_length hL] at h1
    exact h1.symm
  refine ⟨pre.drop (patW g' a b).length, ?_⟩
  have hpredec : pre = patW g' a b ++ pre.drop (patW g' a b).length := by
    conv_lhs => rw [← List.take_append_drop (patW g' a b).length pre]
    rw [← htake]
  rw [hpredec, List.append_assoc] at heq
  exact List.append_cancel_left heq

/-- Completeness of the fuel-indexed scan: every nonempty hex capture
occurring in the input is returned. -/
theorem whoScanF_complete : ∀ fuel : Nat, ∀ s g : List Char,
    s.length ≤ fuel → g ≠ [] → g.all isHexDig = true → hoverOccurs g s →
    g ∈ whoScanF fuel s := by
  intro fuel
  induction fuel with
  | zero =>
    intro s g hf hne hhex hocc
    exfalso
    obtain ⟨q1, q2, pre, post, hq1, hq2, hs⟩ := hocc
    have hlen := congrArg List.length hs
    rw [List.length_append, List.length_append, patW_length] at hlen
    omega
  | succ fuel ih =>
    intro s g hf hne hhex hocc
    obtain ⟨q1, q2, pre, post, hq1, hq2, hs⟩ := hocc
    cases s with
    | nil =>
      exfalso
      have hlen := congrArg List.length hs
      rw [List.length_append, List.length_append, patW_length] at hlen
      simp only [List.length_nil] at hlen
      omega
    | cons c rest =>
      unfold whoScanF
      cases htm : tryMatchWho (c :: rest) with
      | some p =>
        obtain ⟨g', after⟩ := p
        simp only
        cases pre with
        | nil =>
          rw [List.nil_append] at hs
          have hpat := tryMatchWho_patW g q1 q2 post hne hhex hq1 hq2
          rw [← hs, htm] at hpat
          have heq2 : (g', after) = (g, post) := Option.some.inj hpat
          have hgg : g' = g := congrArg Prod.fst heq2
          exact List.mem_cons.mpr (Or.inl hgg.symm)
        | cons p0 pre' =>
          obtain ⟨hg'ne, hg'hex, a, b, ha, hb, hsdec⟩ := tryMatchWho_decomp _ _ _ htm
          have hnoover : ∃ mid, after = mid ++ (patW g q1 q2 ++ post) :=
            patW_no_inner g g' a b q1 q2 after post (p0 :: pre') hg'ne hg'hex ha hb
              (by simp) (hsdec.symm.trans hs)
          obtain ⟨mid, hmid⟩ := hnoover
          have hafterlen : after.length ≤ fuel := by
            have hlt := tryMatchWho_length _ _ _ htm
            simp only [List.length_cons] at hlt hf
            omega
          have hmem := ih after g hafterlen hne hhex ⟨q1, q2, mid, post, hq1, hq2, hmid⟩
          exact List.mem_cons.mpr (Or.inr hmem)
      | none =>
        simp only
        cases pre with
        | nil =>
          exfalso
          rw [List.nil_append] at hs
          have hpat := tryMatchWho_patW g q1 q2 post hne hhex hq1 hq2
          rw [← hs, htm] at hpat
          exact Option.noConfusion hpat
        | cons p0 pre' =>
          rw [List.cons_append] at hs
          injection hs with hc hrest
          apply ih rest g ?_ hne hhex ⟨q1, q2, pre', post, hq1, hq2, hrest⟩
          simp only [List.length_cons] at hf
          omega

/-- C5, counterexample: the note
`<a href="/people/abc" class="profile">x</a>` contains the hex GUID `abc`
inside an anchor-tag href of the form `/people/<hex>`, yet `who()` returns
the empty list, because the compiled regex additionally demands the literal
`␣class=` + quote + `hovercardable` right after the href. -/
theorem who_anchor_cex :
    (∃ pre post,
      ("<a href=\"/people/abc\" class=\"profile\">x</a>".toList)
        = pre ++ (("/people/".toList ++ "abc".toList) ++ post))
    ∧ ("abc".toList ≠ [] ∧ ("abc".toList).all isHexDig = true)
    ∧ who ("<a href=\"/people/abc\" class=\"profile\">x</a>".toList) = [] := by
  refine ⟨⟨"<a href=\"".toList, "\" class=\"profile\">x</a>".toList, ?_⟩, ⟨?_, ?_⟩, ?_⟩
  · decide
  · decide
  · decide
  · decide

/-- C5, amended: `who()` returns the list of hex GUIDs `g` that occur in
the embedded `note_html` as the capture of the pattern
`/people/<hex><quote>␣class=<quote>hovercardable` (the compiled
`_who_regexp`), and no others: membership in the result is equivalent to
being a nonempty lowercase-hex string occurring in that pattern.  A GUID in
a bare `/people/<hex>` href without the `hovercardable` class text is not
returned, and the pattern is extracted wherever it occurs, anchor tag or
not. -/
theorem who_characterization (s g : List Char) :
    g ∈ who s ↔ (g ≠ [] ∧ g.all isHexDig = true ∧ hoverOccurs g s) := by
  constructor
  · intro h
    exact whoScanF_sound s.length s g h
  · rintro ⟨h1, h2, h3⟩
    exact whoScanF_complete s.length s g le_rfl h1 h2 h3

/-- What a successful `about` match attempt says about the input. -/
theorem tryMatchAbout_decomp (s run : List Char)
    (h : tryMatchAbout s = some run) :
    run ≠ [] ∧ run.all isHexDig = true
    ∧ ∃ post, s = "/posts/".toList ++ (run ++ post) := by
  unfold tryMatchAbout at h
  cases hd : dropLit ("/posts/".toList) s with
  | none => rw [hd] at h; exact absurd h (by simp)
  | some s1 =>
    rw [hd] at h
    simp only at h
    by_cases hrun : s1.takeWhile isHexDig = []
    · rw [if_pos hrun] at h; exact absurd h (by simp)
    · rw [if_neg hrun] at h
      have hr : run = s1.takeWhile isHexDig := (Option.some.inj h).symm
      refine ⟨by rw [hr]; exact hrun,
        by rw [hr]; exact List.all_eq_true.mpr fun a ha => List.mem_takeWhile_imp ha,
        s1.dropWhile isHexDig, ?_⟩
      rw [(dropLit_iff _ _ _).mp hd, hr, List.takeWhile_append_dropWhile]

/-- A match attempt where `/posts/` is followed by a hex character
succeeds. -/
theorem tryMatchAbout_pos (c : Char) (post : List Char) (hc : isHexDig c = true) :
    ∃ run, tryMatchAbout ("/posts/".toList ++ (c :: post)) = some run := by
  have htw : (c :: post).takeWhile isHexDig = c :: post.takeWhile isHexDig := by
    simp [List.takeWhile_cons, hc]
  refine ⟨c :: post.takeWhile isHexDig, ?_⟩
  unfold tryMatchAbout
  rw [dropLit_append]
  simp only
  rw [htw]
  simp

/-- Soundness of `aboutSearch`: a found run is a nonempty hex run standing
right after a `/posts/` literal somewhere in the input. -/
theorem aboutSearch_sound : ∀ s run : List Char, aboutSearch s = some run →
    run ≠ [] ∧ run.all isHexDig = true
    ∧ ∃ pre post, s = pre ++ ("/posts/".toList ++ (run ++ post)) := by
  intro s
  induction s with
  | nil => intro run h; simp [aboutSearch] at h
  | cons c rest ih =>
    intro run h
    unfold aboutSearch at h
    cases htm : tryMatchAbout (c :: rest) with
    | some r =>
      rw [htm] at h
      simp only at h
      obtain ⟨hne, hhex, post, hdec⟩ := tryMatchAbout_decomp _ _ htm
      have hrr : r = run := Option.some.inj h
      subst hrr
      exact ⟨hne, hhex, [], post, by simpa using hdec⟩
    | none =>
      rw [htm] at h
      obtain ⟨hne, hhex, pre, post, hdec⟩ := ih run h
      exact ⟨hne, hhex, c :: pre, post, by rw [List.cons_append, hdec]⟩

/-- Completeness of `aboutSearch`: if a `/posts/<hex>` reference occurs,
the search succeeds. -/
theorem aboutSearch_complete : ∀ s : List Char, HasPostsRef s →
    ∃ run, aboutSearch s = some run := by
  intro s
  induction s with
  | nil =>
    intro h
    exfalso
    obtain ⟨pre, c, post, hc, hs⟩ := h
    have hlen := congrArg List.length hs
    have h7 : ("/posts/".toList).length = 7 := rfl
    rw [List.length_append, List.length_append, List.length_cons, h7] at hlen
    simp only [List.length_nil] at hlen
    omega
  | cons x rest ih =>
    intro h
    unfold aboutSearch
    cases htm : tryMatchAbout (x :: rest) with
    | some r => exact ⟨r, rfl⟩
    | none =>
      simp only
      obtain ⟨pre, c, post, hc, hs⟩ := h
      cases pre with
      | nil =>
        exfalso
        rw [List.nil_append] at hs
        obtain ⟨run, hrun⟩ := tryMatchAbout_pos c post hc
        rw [← hs, htm] at hrun
        exact Option.noConfusion hrun
      | cons p0 pre' =>
        rw [List.cons_append] at hs
        injection hs with h1 h2
        exact ih ⟨pre', c, post, hc, h2⟩

/-- With no `/posts/<hex>` reference present, the search fails. -/
theorem aboutSearch_none (s : List Char) (h : ¬ HasPostsRef s) :
    aboutSearch s = none := by
  cases haso : aboutSearch s with
  | none => rfl
  | some run =>
    exfalso
    obtain ⟨hne, hhex, pre, post, hdec⟩ := aboutSearch_sound s run haso
    cases run with
    | nil => exact hne rfl
    | cons c run' =>
      apply h
      refine ⟨pre, c, run' ++ post, ?_, ?_⟩
      · exact List.all_eq_true.mp hhex c (List.mem_cons_self c run')
      · rw [hdec]; simp

/-- C6, counterexample: `x /posts/ab y` contains a `/posts/<hex>`
reference, but `about()` neither returns an integer post id nor the
`who()` value: the regex admits the hex letters `a`-`f` while Python
`int()` does not, so `int('ab')` raises `ValueError`. -/
theorem about_hexletter_cex :
    (∃ pre post, ("x /posts/ab y".toList)
        = pre ++ ("/posts/".toList ++ ('a' :: post)) ∧ isHexDig 'a' = true)
    ∧ notifAbout ("x /posts/ab y".toList) = AboutResult.valueError
    ∧ (∀ n, notifAbout ("x /posts/ab y".toList) ≠ AboutResult.postId n)
    ∧ notifAbout ("x /posts/ab y".toList)
        ≠ AboutResult.people (who ("x /posts/ab y".toList)) := by
  refine ⟨⟨"x ".toList, "b y".toList, by decide, by decide⟩, ?_, ?_, ?_⟩
  · decide
  · intro n h
    have hv : notifAbout ("x /posts/ab y".toList) = AboutResult.valueError := by decide
    rw [hv] at h
    exact AboutResult.noConfusion h
  · decide

/-- C6, amended: when no `/posts/<hex>` reference occurs in `note_html`,
`about()` returns exactly the value of `who()`; when such a reference
occurs, the search yields the hex run of the leftmost reference, and
`about()` returns its decimal value as the post id when it consists only
of decimal digits, while a run containing a hex letter makes `int()` raise
`ValueError` (so no value is returned at all). -/
theorem about_spec (s : List Char) :
    (¬ HasPostsRef s → notifAbout s = AboutResult.people (who s))
    ∧ (HasPostsRef s → ∃ run, aboutSearch s = some run ∧ run ≠ []
        ∧ run.all isHexDig = true
        ∧ (∃ pre post, s = pre ++ ("/posts/".toList ++ (run ++ post)))
        ∧ (run.all isDecDig = true → notifAbout s = AboutResult.postId (decVal run))
        ∧ (run.all isDecDig = false → notifAbout s = AboutResult.valueError)) := by
  constructor
  · intro h
    unfold notifAbout
    rw [aboutSearch_none s h]
  · intro h
    obtain ⟨run, hrun⟩ := aboutSearch_complete s h
    obtain ⟨hne, hhex, pre, post, hdec⟩ := aboutSearch_sound s run hrun
    refine ⟨run, hrun, hne, hhex, ⟨pre, post, hdec⟩, ?_, ?_⟩
    · intro hdd
      unfold notifAbout
      rw [hrun]
      simp only
      unfold pyInt
      rw [if_pos ⟨hne, hdd⟩]
    · intro hdd
      unfold notifAbout
      rw [hrun]
      simp only
      unfold pyInt
      rw [if_neg ?_]
      rintro ⟨-, hall⟩
      rw [hall] at hdd
      exact Bool.noConfusion hdd

/-- C6, witness for `about_spec` on the note `/posts/129`: the reference
is present and all-decimal, and `about()` returns post id 129. -/
theorem about_spec_witness :
    ∃ run, aboutSearch ("/posts/129".toList) = some run ∧ run ≠ []
      ∧ run.all isHexDig = true
      ∧ (∃ pre post, "/posts/129".toList = pre ++ ("/posts/".toList ++ (run ++ post)))
      ∧ (run.all isDecDig = true →
          notifAbout ("/posts/129".toList) = AboutResult.postId (decVal run))
      ∧ (run.all isDecDig = false →
          notifAbout ("/posts/129".toList) = AboutResult.valueError) :=
  (about_spec ("/posts/129".toList)).2 ⟨[], '1', "29".toList, by decide, by decide⟩

end Diaspy
